import Mathlib

/-!
Verification of the response-caching subsystem and product CRUD controller
of `store_api`.

The controller handlers (`create_product`, `get_product`, `update_product`,
`delete_product`) are embedded from `src/store/controllers/product.py`:
each Python `try` body becomes a pure function returning an
`Except Exc _` value together with the list of effect events it performed
(use-case calls and cache invalidation calls), and each chain of `except`
clauses becomes a total function from the raised exception to the HTTP
response, mirroring Python's top-down clause matching (an `HTTPException`
raised inside the `try` block is an `Exception`, so a generic
`except Exception` clause catches it).

The cache module `store/core/cache.py` (cache store, key composer,
cache-aside decorator, invalidator) is not part of the reviewed sources;
those components are modelled from the specification, as marked on each
definition.
-/

namespace StoreApi

/-- Exceptions that can propagate out of a handler's `try` body.
`notFound` and `validation` embed the application's `NotFoundException`
and `ValidationException` (`src/store/core/exceptions.py`); `http` embeds
FastAPI's `HTTPException`; `cacheFault` stands for any exception raised by
the cache layer; `other` is any other `Exception`. -/
inductive Exc where
  | notFound (msg : String)
  | validation (msg : String)
  | http (code : Nat) (detail : String)
  | cacheFault (msg : String)
  | other (msg : String)
deriving DecidableEq, Repr

/-- An HTTP error response produced by `raise HTTPException(status_code, detail)`
in an `except` clause. -/
structure HttpError where
  status : Nat
  detail : String
deriving DecidableEq, Repr

/-- Observable effects performed by a handler body: use-case calls and
calls to `invalidate_cache`. -/
inductive Event where
  | callCreate
  | callUpdate (id : String)
  | callDelete (id : String)
  | callInvalidate (pat : String)
deriving DecidableEq, Repr

/-- The `try` body of `create_product` (product.py lines 46-49):
`result = await usecase.create(body=body)`, then
`await invalidate_cache("products:list")`, then `return result`.
`createRes` is the outcome of `usecase.create`; `inval` is the behaviour of
`invalidate_cache` on a given pattern. The returned trace lists the calls
made, in order. -/
def createBody (createRes : Except Exc α) (inval : String → Except Exc Unit) :
    Except Exc α × List Event :=
  match createRes with
  | .error e => (.error e, [.callCreate])
  | .ok r =>
    match inval "products:list" with
    | .error e => (.error e, [.callCreate, .callInvalidate "products:list"])
    | .ok _ => (.ok r, [.callCreate, .callInvalidate "products:list"])

/-- The `except` clauses of `create_product` (product.py lines 50-59):
`ValidationException` maps to HTTP 400 with the exception's message; any
other `Exception` maps to HTTP 500 "Erro interno ao criar produto". -/
def createCatch : Except Exc α → Except HttpError α
  | .ok r => .ok r
  | .error (.validation m) => .error ⟨400, m⟩
  | .error _ => .error ⟨500, "Erro interno ao criar produto"⟩

/-- The `create_product` handler: run the `try` body, then apply the
`except` clauses to its outcome. -/
def create_product (createRes : Except Exc α) (inval : String → Except Exc Unit) :
    Except HttpError α × List Event :=
  let p := createBody createRes inval
  (createCatch p.1, p.2)

/-- The `try` body of `update_product` (product.py lines 208-218): if the
request body has no set fields, `raise HTTPException(400, "Pelo menos um
campo deve ser fornecido para atualização")`; otherwise
`result = await usecase.update(...)`, then
`await invalidate_cache(f"product:{id}")`, then
`await invalidate_cache("products:list")`, then `return result`. -/
def updateBody (bodyEmpty : Bool) (id : String) (updateRes : Except Exc α)
    (inval : String → Except Exc Unit) : Except Exc α × List Event :=
  if bodyEmpty then
    (.error (.http 400 "Pelo menos um campo deve ser fornecido para atualização"), [])
  else
    match updateRes with
    | .error e => (.error e, [.callUpdate id])
    | .ok r =>
      match inval ("product:" ++ id) with
      | .error e => (.error e, [.callUpdate id, .callInvalidate ("product:" ++ id)])
      | .ok _ =>
        match inval "products:list" with
        | .error e =>
          (.error e,
            [.callUpdate id, .callInvalidate ("product:" ++ id),
              .callInvalidate "products:list"])
        | .ok _ =>
          (.ok r,
            [.callUpdate id, .callInvalidate ("product:" ++ id),
              .callInvalidate "products:list"])

/-- The `except` clauses of `update_product` (product.py lines 220-234):
`NotFoundException` maps to 404, `ValidationException` to 400, and any
other `Exception` — including the `HTTPException` raised for an empty
body, which is neither of the first two — to HTTP 500
"Erro interno ao atualizar produto". -/
def updateCatch : Except Exc α → Except HttpError α
  | .ok r => .ok r
  | .error (.notFound m) => .error ⟨404, m⟩
  | .error (.validation m) => .error ⟨400, m⟩
  | .error _ => .error ⟨500, "Erro interno ao atualizar produto"⟩

/-- The `update_product` handler. -/
def update_product (bodyEmpty : Bool) (id : String) (updateRes : Except Exc α)
    (inval : String → Except Exc Unit) : Except HttpError α × List Event :=
  let p := updateBody bodyEmpty id updateRes inval
  (updateCatch p.1, p.2)

/-- The `try` body of `delete_product` (product.py lines 263-266):
`await usecase.delete(id=id)`, then `await invalidate_cache(f"product:{id}")`,
then `await invalidate_cache("products:list")`. -/
def deleteBody (id : String) (deleteRes : Except Exc Unit)
    (inval : String → Except Exc Unit) : Except Exc Unit × List Event :=
  match deleteRes with
  | .error e => (.error e, [.callDelete id])
  | .ok _ =>
    match inval ("product:" ++ id) with
    | .error e => (.error e, [.callDelete id, .callInvalidate ("product:" ++ id)])
    | .ok _ =>
      match inval "products:list" with
      | .error e =>
        (.error e,
          [.callDelete id, .callInvalidate ("product:" ++ id),
            .callInvalidate "products:list"])
      | .ok _ =>
        (.ok (),
          [.callDelete id, .callInvalidate ("product:" ++ id),
            .callInvalidate "products:list"])

/-- The `except` clauses of `delete_product` (product.py lines 267-276):
`NotFoundException` maps to 404; any other `Exception` maps to HTTP 500
"Erro interno ao deletar produto". -/
def deleteCatch : Except Exc Unit → Except HttpError Unit
  | .ok _ => .ok ()
  | .error (.notFound m) => .error ⟨404, m⟩
  | .error _ => .error ⟨500, "Erro interno ao deletar produto"⟩

/-- The `delete_product` handler. -/
def delete_product (id : String) (deleteRes : Except Exc Unit)
    (inval : String → Except Exc Unit) : Except HttpError Unit × List Event :=
  let p := deleteBody id deleteRes inval
  (deleteCatch p.1, p.2)

/-- Modelled from the spec (§3, the cache module `store/core/cache.py` is not
among the reviewed sources): a CacheEntry is
`{ key, value: opaque serialized payload, expires_at: timestamp }`.
The payload is kept as a `String` (serialization is the identity on this
model); timestamps are naturals. -/
structure CacheEntry where
  key : String
  value : String
  expiresAt : Nat
deriving DecidableEq, Repr

/-- The Cache Store's state: its entries, most recently written first. -/
abbrev Store := List CacheEntry

/-- `leadMatch pat key` decides whether `key` starts with `pat`,
character by character. -/
def leadMatch : List Char → List Char → Bool
  | [], _ => true
  | _ :: _, [] => false
  | p :: ps, k :: ks => p == k && leadMatch ps ks

/-- `keyStarts pat k`: the key `k` starts with the pattern `pat`. -/
def keyStarts (pat k : String) : Bool := leadMatch pat.data k.data

/-- Modelled from the spec (§4.1, cache module not in the reviewed sources):
`get(key)` returns NOT_FOUND (`none`) if the key is absent or its
`expires_at` has passed; reads never return an expired value. -/
def storeGet (s : Store) (now : Nat) (k : String) : Option String :=
  match s.find? (fun e => decide (e.key = k)) with
  | some e => if now < e.expiresAt then some e.value else none
  | none => none

/-- Modelled from the spec (§4.1, cache module not in the reviewed sources):
`set(key, value, ttl_seconds)` inserts or overwrites the entry with
`expires_at = now + ttl_seconds`. (A zero TTL is rejected at configuration
time as `InvalidTTL`; the claims below always take `ttl > 0`.) -/
def storeSet (s : Store) (now : Nat) (k v : String) (ttl : Nat) : Store :=
  ⟨k, v, now + ttl⟩ :: s.filter (fun e => decide (e.key ≠ k))

/-- Modelled from the spec (§4.1, cache module not in the reviewed sources):
`delete(key)` removes the entry if present; absence is not an error. -/
def storeDelete (s : Store) (k : String) : Store :=
  s.filter (fun e => decide (e.key ≠ k))

/-- Modelled from the spec (§4.1, cache module not in the reviewed sources):
`delete_by_prefix` removes every entry whose key starts with the given
pattern. -/
def deleteStartingWith (s : Store) (pat : String) : Store :=
  s.filter (fun e => !keyStarts pat e.key)

/-- Modelled from the spec (§4.4, cache module not in the reviewed sources):
`invalidate(pattern)` calls `delete` for an exact key, or `delete_by_prefix`
when the pattern is declared as a prefix pattern; `asCollection` is that
declaration (by convention true exactly for collection patterns such as
`"products:list"`). -/
def invalidate (s : Store) (pat : String) (asCollection : Bool) : Store :=
  if asCollection then deleteStartingWith s pat else storeDelete s pat

/-- Modelled from the spec (§4.2, the Key Composer is part of the cache
module, which is not among the reviewed sources): `escape` neutralizes the
separator and delimiter characters inside values by percent-style escaping.
Character-wise: `'%'` (the escape character itself) becomes `"%25"`, the
separator `'|'` becomes `"%7C"`, the `'='` delimiter becomes `"%3D"`, and
every other character passes through. Names and values are modelled as
`List Char` (the character data of the strings involved). -/
def escapeChar (c : Char) : List Char :=
  if c = '%' then ['%', '2', '5']
  else if c = '|' then ['%', '7', 'C']
  else if c = '=' then ['%', '3', 'D']
  else [c]

/-- Modelled from the spec (§4.2): `escape` applied character-wise. -/
def escape (v : List Char) : List Char := (v.map escapeChar).flatten

/-- Decoder for `escape`, used below to show `escape` is injective. -/
def unescape : List Char → List Char
  | [] => []
  | c :: rest =>
    if c = '%' then
      match rest with
      | d :: e :: rest2 =>
        if d = '2' ∧ e = '5' then '%' :: unescape rest2
        else if d = '7' ∧ e = 'C' then '|' :: unescape rest2
        else if d = '3' ∧ e = 'D' then '=' :: unescape rest2
        else c :: d :: e :: unescape rest2
      | _ => c :: rest
    else c :: unescape rest

/-- Modelled from the spec (§4.2): one sorted parameter renders as
`name + "=" + escape(value)`. -/
def renderPair (p : (List Char) × (List Char)) : List Char :=
  p.1 ++ '=' :: escape p.2

/-- Modelled from the spec (§4.2): the rendered pairs are joined with the
fixed separator `'|'`, a character `escape` never lets through. -/
def joinSep : List (List Char) → List Char
  | [] => []
  | [p] => p
  | p :: q :: ps => p ++ '|' :: joinSep (q :: ps)

/-- Parameters are ordered by name, ascending. -/
def keyLe (a b : (List Char) × (List Char)) : Prop := a.1 ≤ b.1

instance : DecidableRel keyLe := fun a b => inferInstanceAs (Decidable (a.1 ≤ b.1))

instance : IsTotal ((List Char) × (List Char)) keyLe := ⟨fun a b => le_total a.1 b.1⟩

instance : IsTrans ((List Char) × (List Char)) keyLe := ⟨fun _ _ _ => le_trans⟩

/-- Strict name order, used to see that a sorted duplicate-free parameter
list is uniquely determined. -/
def keyLt (a b : (List Char) × (List Char)) : Prop := a.1 < b.1

instance : IsAntisymm ((List Char) × (List Char)) keyLt :=
  ⟨fun _ _ h1 h2 => absurd (h1.trans h2) (lt_irrefl _)⟩

/-- Modelled from the spec (§4.2): sort the parameters by name ascending. -/
def sortPairs (ps : List ((List Char) × (List Char))) :
    List ((List Char) × (List Char)) :=
  List.insertionSort keyLe ps

/-- Modelled from the spec (§4.2): parameters with a null/absent value are
omitted entirely rather than serialized as a sentinel. -/
def presentPairs (params : List ((List Char) × Option (List Char))) :
    List ((List Char) × (List Char)) :=
  params.filterMap (fun p => p.2.map (fun v => (p.1, v)))

/-- Modelled from the spec (§4.2): `compose(prefix, params)` — drop absent
parameters, sort by name ascending, render each as `name=escape(value)`,
join with the separator, and prepend the endpoint's logical prefix
followed by `':'`. -/
def compose (pre : List Char) (params : List ((List Char) × Option (List Char))) :
    List Char :=
  pre ++ ':' :: joinSep ((sortPairs (presentPairs params)).map renderPair)

/-- Outcome of one call through the cache-aside decorator: the response,
the cache store afterwards, and how many times the wrapped function was
invoked. -/
structure CallResult where
  result : Except Exc String
  store : Store
  calls : Nat

/-- Modelled from the spec (§4.3, cache module not in the reviewed sources):
the cache-aside decorator `cache_response`. `key` is the cache key derived
by the Key Composer (step 1; the composer is verified separately below).
Step 2: look the key up — a failing `get` (`getFails`) degrades to a miss;
on a hit return the cached value without invoking the wrapped function.
Step 3: on a miss invoke the wrapped function `f`; a failure propagates
unchanged and does not populate the cache. Step 4: on success store the
result with the TTL — a failing `set` (`setFails`, e.g. serialization
failure) is swallowed and the read still succeeds. -/
def cache_response (s : Store) (now : Nat) (key : String) (ttl : Nat)
    (getFails : Bool) (setFails : Bool) (f : Except Exc String) : CallResult :=
  match (if getFails then none else storeGet s now key) with
  | some v => ⟨.ok v, s, 0⟩
  | none =>
    match f with
    | .error e => ⟨.error e, s, 1⟩
    | .ok r => ⟨.ok r, if setFails then s else storeSet s now key r ttl, 1⟩

end StoreApi

namespace StoreApi

lemma storeGet_storeDelete (s : Store) (now : Nat) (k : String) :
    storeGet (storeDelete s k) now k = none := by
  induction s with
  | nil => rfl
  | cons e s ih =>
    by_cases h : e.key = k <;>
      simp only [storeDelete, List.filter, storeGet, List.find?, h] at ih ⊢ <;>
      simp [h] <;> simpa [storeDelete, storeGet] using ih

lemma storeGet_deleteStartingWith_hit (s : Store) (now : Nat) (pat k : String)
    (h : keyStarts pat k = true) :
    storeGet (deleteStartingWith s pat) now k = none := by
  induction s with
  | nil => rfl
  | cons e s ih =>
    by_cases hk : e.key = k
    · have hm : keyStarts pat e.key = true := by rw [hk]; exact h
      simpa [deleteStartingWith, List.filter, hm] using ih
    · by_cases hm : keyStarts pat e.key <;>
        simp only [deleteStartingWith, List.filter, hm] at ih ⊢ <;>
        simp [storeGet, List.find?, hk] <;>
        simpa [deleteStartingWith, storeGet] using ih

lemma storeGet_deleteStartingWith_other (s : Store) (now : Nat) (pat k : String)
    (h : keyStarts pat k = false) :
    storeGet (deleteStartingWith s pat) now k = storeGet s now k := by
  induction s with
  | nil => rfl
  | cons e s ih =>
    by_cases hk : e.key = k
    · have hm : keyStarts pat e.key = false := by rw [hk]; exact h
      simp only [deleteStartingWith, List.filter, hm]
      simp only [Bool.not_false, storeGet, List.find?, hk]
      simp [hk]
    · by_cases hm : keyStarts pat e.key <;>
        simp only [deleteStartingWith, List.filter, hm] at ih ⊢ <;>
        simp [storeGet, List.find?, hk] <;>
        simpa [deleteStartingWith, storeGet] using ih

lemma storeGet_storeSet_hit (s : Store) (now0 now : Nat) (k v : String)
    (ttl : Nat) (h : now < now0 + ttl) :
    storeGet (storeSet s now0 k v ttl) now k = some v := by
  simp [storeGet, storeSet, List.find?, h]

lemma storeGet_storeSet_expired (s : Store) (now0 now : Nat) (k v : String)
    (ttl : Nat) (h : now0 + ttl ≤ now) :
    storeGet (storeSet s now0 k v ttl) now k = none := by
  simp [storeGet, storeSet, List.find?, Nat.not_lt.mpr h]

lemma escape_cons (c : Char) (v : List Char) :
    escape (c :: v) = escapeChar c ++ escape v := by
  simp [escape]

lemma unescape_cons_ne {c : Char} (rest : List Char) (h : c ≠ '%') :
    unescape (c :: rest) = c :: unescape rest := by
  rw [unescape.eq_def]
  simp [h]

lemma unescape_pct (l : List Char) :
    unescape ('%' :: '2' :: '5' :: l) = '%' :: unescape l := rfl

lemma unescape_sep (l : List Char) :
    unescape ('%' :: '7' :: 'C' :: l) = '|' :: unescape l := rfl

lemma unescape_delim (l : List Char) :
    unescape ('%' :: '3' :: 'D' :: l) = '=' :: unescape l := rfl

lemma unescape_escape (v : List Char) : unescape (escape v) = v := by
  induction v with
  | nil => rfl
  | cons c v ih =>
    rw [escape_cons]
    by_cases h1 : c = '%'
    · subst h1
      have h : escapeChar '%' ++ escape v = '%' :: '2' :: '5' :: escape v := rfl
      rw [h, unescape_pct, ih]
    · by_cases h2 : c = '|'
      · subst h2
        have h : escapeChar '|' ++ escape v = '%' :: '7' :: 'C' :: escape v := rfl
        rw [h, unescape_sep, ih]
      · by_cases h3 : c = '='
        · subst h3
          have h : escapeChar '=' ++ escape v = '%' :: '3' :: 'D' :: escape v := rfl
          rw [h, unescape_delim, ih]
        · have h : escapeChar c ++ escape v = c :: escape v := by
            simp [escapeChar, h1, h2, h3]
          rw [h, unescape_cons_ne _ h1, ih]

lemma escape_injective {v1 v2 : List Char} (h : escape v1 = escape v2) :
    v1 = v2 := by
  have h2 := congrArg unescape h
  rwa [unescape_escape, unescape_escape] at h2

lemma mem_escapeChar {x c : Char} (hx : x ∈ escapeChar c) :
    x ≠ '|' ∧ x ≠ '=' := by
  by_cases h1 : c = '%'
  · subst h1
    simp [escapeChar] at hx
    rcases hx with rfl | rfl | rfl <;> exact ⟨by decide, by decide⟩
  · by_cases h2 : c = '|'
    · subst h2
      simp [escapeChar] at hx
      rcases hx with rfl | rfl | rfl <;> exact ⟨by decide, by decide⟩
    · by_cases h3 : c = '='
      · subst h3
        simp [escapeChar] at hx
        rcases hx with rfl | rfl | rfl <;> exact ⟨by decide, by decide⟩
      · simp [escapeChar, h1, h2, h3] at hx
        subst hx
        exact ⟨h2, h3⟩

lemma sep_not_mem_escape (v : List Char) : ('|' : Char) ∉ escape v := by
  intro hmem
  obtain ⟨l, hl, hx⟩ := List.mem_flatten.mp hmem
  obtain ⟨c, _, rfl⟩ := List.mem_map.mp hl
  exact (mem_escapeChar hx).1 rfl

lemma delim_not_mem_escape (v : List Char) : ('=' : Char) ∉ escape v := by
  intro hmem
  obtain ⟨l, hl, hx⟩ := List.mem_flatten.mp hmem
  obtain ⟨c, _, rfl⟩ := List.mem_map.mp hl
  exact (mem_escapeChar hx).2 rfl

lemma append_cons_eq_append_cons {c : Char} :
    ∀ {a1 a2 b1 b2 : List Char}, a1 ++ c :: b1 = a2 ++ c :: b2 →
      c ∉ a1 → c ∉ a2 → a1 = a2 ∧ b1 = b2 := by
  intro a1
  induction a1 with
  | nil =>
    intro a2 b1 b2 h _ h2
    cases a2 with
    | nil => simpa using h
    | cons d a2 =>
      simp only [List.nil_append, List.cons_append, List.cons.injEq] at h
      exact absurd (h.1 ▸ List.mem_cons_self d a2) h2
  | cons d a1 ih =>
    intro a2 b1 b2 h h1 h2
    cases a2 with
    | nil =>
      simp only [List.cons_append, List.nil_append, List.cons.injEq] at h
      exact absurd (h.1 ▸ List.mem_cons_self d a1) h1
    | cons d2 a2 =>
      simp only [List.cons_append, List.cons.injEq] at h
      obtain ⟨ha, hb⟩ := ih h.2 (fun hc => h1 (List.mem_cons_of_mem _ hc))
        (fun hc => h2 (List.mem_cons_of_mem _ hc))
      exact ⟨by rw [h.1, ha], hb⟩

lemma renderPair_inj {p q : (List Char) × (List Char)}
    (hp : ('=' : Char) ∉ p.1) (hq : ('=' : Char) ∉ q.1)
    (h : renderPair p = renderPair q) : p = q := by
  obtain ⟨h1, h2⟩ := append_cons_eq_append_cons h hp hq
  obtain ⟨a, b⟩ := p
  obtain ⟨c, d⟩ := q
  simp only at h1 h2
  rw [h1, escape_injective h2]

lemma joinSep_ne_nil {q : List Char} {qs : List (List Char)}
    (hq : ∀ p ∈ q :: qs, p ≠ []) : joinSep (q :: qs) ≠ [] := by
  cases qs with
  | nil => exact hq q (by simp)
  | cons q2 qs => simp [joinSep]

lemma joinSep_inj : ∀ (ps1 ps2 : List (List Char)),
    (∀ p ∈ ps1, ('|' : Char) ∉ p ∧ p ≠ []) →
    (∀ p ∈ ps2, ('|' : Char) ∉ p ∧ p ≠ []) →
    joinSep ps1 = joinSep ps2 → ps1 = ps2 := by
  intro ps1
  induction ps1 with
  | nil =>
    intro ps2 _ h2 h
    cases ps2 with
    | nil => rfl
    | cons q qs =>
      exact absurd h.symm (joinSep_ne_nil (fun p hp => (h2 p hp).2))
  | cons p ps ih =>
    intro ps2 h1 h2 h
    cases ps2 with
    | nil =>
      exact absurd h (joinSep_ne_nil (fun x hx => (h1 x hx).2))
    | cons q qs =>
      cases ps with
      | nil =>
        cases qs with
        | nil => simpa [joinSep] using h
        | cons q2 qs2 =>
          exfalso
          simp only [joinSep] at h
          exact (h1 p (by simp)).1
            (h ▸ List.mem_append_right q (List.mem_cons_self _ _))
      | cons p2 ps2' =>
        cases qs with
        | nil =>
          exfalso
          simp only [joinSep] at h
          exact (h2 q (by simp)).1
            (h.symm ▸ List.mem_append_right p (List.mem_cons_self _ _))
        | cons q2 qs2 =>
          simp only [joinSep] at h
          obtain ⟨hh, ht⟩ := append_cons_eq_append_cons h
            (h1 p (by simp)).1 (h2 q (by simp)).1
          have hrec := ih (q2 :: qs2)
            (fun x hx => h1 x (List.mem_cons_of_mem _ hx)) ?_ ht
          · rw [hh, hrec]
          · intro x hx
            exact h2 x (List.mem_cons_of_mem _ hx)

lemma map_renderPair_inj : ∀ (l1 l2 : List ((List Char) × (List Char))),
    (∀ p ∈ l1, ('=' : Char) ∉ p.1) → (∀ p ∈ l2, ('=' : Char) ∉ p.1) →
    l1.map renderPair = l2.map renderPair → l1 = l2 := by
  intro l1
  induction l1 with
  | nil =>
    intro l2 _ _ h
    cases l2 with
    | nil => rfl
    | cons q qs => simp at h
  | cons p ps ih =>
    intro l2 h1 h2 h
    cases l2 with
    | nil => simp at h
    | cons q qs =>
      simp only [List.map_cons, List.cons.injEq] at h
      have hpq := renderPair_inj (h1 p (by simp)) (h2 q (by simp)) h.1
      have hps := ih qs (fun x hx => h1 x (List.mem_cons_of_mem _ hx))
        (fun x hx => h2 x (List.mem_cons_of_mem _ hx)) h.2
      rw [hpq, hps]

lemma sorted_keyLt_of {l : List ((List Char) × (List Char))}
    (hs : List.Sorted keyLe l) (hn : (l.map Prod.fst).Nodup) :
    List.Sorted keyLt l := by
  have hne : l.Pairwise (fun a b => a.1 ≠ b.1) := List.pairwise_map.mp hn
  exact (hs.and hne).imp (fun h => lt_of_le_of_ne h.1 h.2)

lemma mem_presentPairs {p : (List Char) × (List Char)}
    {params : List ((List Char) × Option (List Char))}
    (hp : p ∈ presentPairs params) : (p.1, some p.2) ∈ params := by
  simp only [presentPairs, List.mem_filterMap] at hp
  obtain ⟨a, ha, hmap⟩ := hp
  cases hv : a.2 with
  | none => rw [hv] at hmap; cases hmap
  | some v =>
    rw [hv] at hmap
    have h2 : (a.1, v) = p := Option.some.inj hmap
    rw [← h2]
    simpa [← hv, Prod.mk.eta] using ha

/-- C8: key determinism. Two parameter mappings (duplicate-free names)
that contain the same set of present name/value pairs — regardless of the
order the parameters were supplied in, and regardless of parameters whose
value is absent, which are omitted — compose to the identical cache
key. -/
theorem key_determinism (pre : List Char)
    (P1 P2 : List ((List Char) × Option (List Char)))
    (hp : (presentPairs P1).Perm (presentPairs P2))
    (hnodup : ((presentPairs P1).map Prod.fst).Nodup) :
    compose pre P1 = compose pre P2 := by
  have hs12 : (sortPairs (presentPairs P1)).Perm (sortPairs (presentPairs P2)) :=
    (List.perm_insertionSort keyLe _).trans
      (hp.trans (List.perm_insertionSort keyLe _).symm)
  have hn1 : ((sortPairs (presentPairs P1)).map Prod.fst).Nodup :=
    (((List.perm_insertionSort keyLe _).map Prod.fst).symm).nodup hnodup
  have hn2 : ((sortPairs (presentPairs P2)).map Prod.fst).Nodup :=
    (hs12.map Prod.fst).nodup hn1
  have hsorted1 : List.Sorted keyLt (sortPairs (presentPairs P1)) :=
    sorted_keyLt_of (List.sorted_insertionSort keyLe _) hn1
  have hsorted2 : List.Sorted keyLt (sortPairs (presentPairs P2)) :=
    sorted_keyLt_of (List.sorted_insertionSort keyLe _) hn2
  have heq : sortPairs (presentPairs P1) = sortPairs (presentPairs P2) :=
    List.eq_of_perm_of_sorted hs12 hsorted1 hsorted2
  simp [compose, heq]

/-- Witness for C8: the mapping `{a ↦ 1, b ↦ 2}` supplied in the opposite
order and with an extra absent-valued parameter `c` composes to the same
key under the `"products:list"` endpoint's logical name. -/
theorem key_determinism_witness :
    compose "products:list".data
        [(['a'], some ['1']), (['b'], some ['2'])]
      = compose "products:list".data
        [(['b'], some ['2']), (['c'], none), (['a'], some ['1'])] :=
  key_determinism _ _ _ (by decide) (by decide)

/-- C9: practical key injectivity. For parameter mappings whose names are
free of separator-collision characters (the separator `'|'` and the
delimiter `'='`), two mappings that differ as sets of present name/value
pairs compose to different keys; escaping prevents parameter values from
injecting the separator sequence. -/
theorem key_injectivity (pre : List Char)
    (P1 P2 : List ((List Char) × Option (List Char)))
    (h1 : ∀ p ∈ P1, ('|' : Char) ∉ p.1 ∧ ('=' : Char) ∉ p.1)
    (h2 : ∀ p ∈ P2, ('|' : Char) ∉ p.1 ∧ ('=' : Char) ∉ p.1)
    (hne : (presentPairs P1).toFinset ≠ (presentPairs P2).toFinset) :
    compose pre P1 ≠ compose pre P2 := by
  intro h
  apply hne
  simp only [compose] at h
  have hjoin := List.cons_injective.eq_iff.mp (List.append_cancel_left h)
  have hmem1 : ∀ p ∈ sortPairs (presentPairs P1),
      ('|' : Char) ∉ p.1 ∧ ('=' : Char) ∉ p.1 := by
    intro p hp
    have hp2 : p ∈ presentPairs P1 :=
      ((List.perm_insertionSort keyLe _).mem_iff).mp hp
    exact h1 (p.1, some p.2) (mem_presentPairs hp2)
  have hmem2 : ∀ p ∈ sortPairs (presentPairs P2),
      ('|' : Char) ∉ p.1 ∧ ('=' : Char) ∉ p.1 := by
    intro p hp
    have hp2 : p ∈ presentPairs P2 :=
      ((List.perm_insertionSort keyLe _).mem_iff).mp hp
    exact h2 (p.1, some p.2) (mem_presentPairs hp2)
  have hcond1 : ∀ x ∈ (sortPairs (presentPairs P1)).map renderPair,
      ('|' : Char) ∉ x ∧ x ≠ [] := by
    intro x hx
    obtain ⟨p, hp, rfl⟩ := List.mem_map.mp hx
    refine ⟨?_, by simp [renderPair]⟩
    intro hx2
    rcases List.mem_append.mp hx2 with hcase | hcase
    · exact (hmem1 p hp).1 hcase
    · rcases List.mem_cons.mp hcase with hcase2 | hcase2
      · exact absurd hcase2 (by decide)
      · exact sep_not_mem_escape p.2 hcase2
  have hcond2 : ∀ x ∈ (sortPairs (presentPairs P2)).map renderPair,
      ('|' : Char) ∉ x ∧ x ≠ [] := by
    intro x hx
    obtain ⟨p, hp, rfl⟩ := List.mem_map.mp hx
    refine ⟨?_, by simp [renderPair]⟩
    intro hx2
    rcases List.mem_append.mp hx2 with hcase | hcase
    · exact (hmem2 p hp).1 hcase
    · rcases List.mem_cons.mp hcase with hcase2 | hcase2
      · exact absurd hcase2 (by decide)
      · exact sep_not_mem_escape p.2 hcase2
  have hmaps := joinSep_inj _ _ hcond1 hcond2 hjoin
  have hsorteq := map_renderPair_inj _ _
    (fun p hp => (hmem1 p hp).2) (fun p hp => (hmem2 p hp).2) hmaps
  have hperm : (presentPairs P1).Perm (presentPairs P2) := by
    have t1 : (presentPairs P1).Perm (sortPairs (presentPairs P1)) :=
      (List.perm_insertionSort keyLe _).symm
    rw [hsorteq] at t1
    exact t1.trans (List.perm_insertionSort keyLe _)
  exact List.toFinset_eq_of_perm _ _ hperm

/-- Witness for C9: under the `"products:list"` endpoint's logical name,
the mapping `{page ↦ 1}` and the mapping `{page ↦ 2}` compose to different
keys. -/
theorem key_injectivity_witness :
    compose "products:list".data [("page".data, some ['1'])]
      ≠ compose "products:list".data [("page".data, some ['2'])] :=
  key_injectivity _ _ _ (by decide) (by decide) (by decide)

/-- C5: after `invalidate` with an exact key, a lookup of that key is a
miss; after `invalidate` with a pattern declared as a prefix pattern,
every key starting with the pattern is a miss, every other key's lookup
is unchanged, and every cached entry whose key does not start with the
pattern is still present. -/
theorem invalidate_semantics :
    (∀ (s : Store) (now : Nat) (k : String),
      storeGet (invalidate s k false) now k = none) ∧
    (∀ (s : Store) (now : Nat) (pat k : String), keyStarts pat k = true →
      storeGet (invalidate s pat true) now k = none) ∧
    (∀ (s : Store) (now : Nat) (pat k : String), keyStarts pat k = false →
      storeGet (invalidate s pat true) now k = storeGet s now k) ∧
    (∀ (s : Store) (pat : String) (e : CacheEntry), e ∈ s →
      keyStarts pat e.key = false → e ∈ invalidate s pat true) :=
  ⟨fun s now k => storeGet_storeDelete s now k,
    fun s now pat k h => storeGet_deleteStartingWith_hit s now pat k h,
    fun s now pat k h => storeGet_deleteStartingWith_other s now pat k h,
    fun s pat e he h => by
      simp [invalidate, deleteStartingWith, List.mem_filter, he, h]⟩

/-- Witness for C5: a concrete store holding `"product:1"`, a
`"products:list"` page and an unrelated key; exact invalidation of
`"product:1"` makes it a miss, prefix invalidation of `"products:list"`
kills the page but leaves the unrelated key's lookup unchanged. -/
theorem invalidate_semantics_witness :
    storeGet (invalidate [⟨"product:1", "a", 10⟩] "product:1" false) 0 "product:1"
        = none ∧
    storeGet (invalidate [⟨"products:list|page=1", "b", 10⟩, ⟨"other", "c", 10⟩]
        "products:list" true) 0 "products:list|page=1" = none ∧
    storeGet (invalidate [⟨"products:list|page=1", "b", 10⟩, ⟨"other", "c", 10⟩]
        "products:list" true) 0 "other"
      = storeGet [⟨"products:list|page=1", "b", 10⟩, ⟨"other", "c", 10⟩] 0 "other" ∧
    (⟨"other", "c", 10⟩ : CacheEntry)
      ∈ invalidate [⟨"products:list|page=1", "b", 10⟩, ⟨"other", "c", 10⟩]
        "products:list" true :=
  ⟨invalidate_semantics.1 _ 0 _,
    invalidate_semantics.2.1 _ 0 _ _ (by decide),
    invalidate_semantics.2.2.1 _ 0 _ _ (by decide),
    invalidate_semantics.2.2.2 _ _ _ (by decide) (by decide)⟩

/-- C6: an entry set with a positive TTL is a miss for every lookup at
`now >= expires_at`; and in general `get` never returns an expired value —
a successful lookup always comes from an entry whose `expires_at` lies
strictly in the future. -/
theorem ttl_expiry :
    (∀ (s : Store) (now0 : Nat) (k v : String) (ttl now : Nat),
      0 < ttl → now0 + ttl ≤ now →
      storeGet (storeSet s now0 k v ttl) now k = none) ∧
    (∀ (s : Store) (now : Nat) (k v : String), storeGet s now k = some v →
      ∃ e, e ∈ s ∧ e.key = k ∧ e.value = v ∧ now < e.expiresAt) := by
  constructor
  · intro s now0 k v ttl now _ h2
    exact storeGet_storeSet_expired s now0 now k v ttl h2
  · intro s now k v h
    induction s with
    | nil => simp [storeGet] at h
    | cons e s ih =>
      by_cases hk : e.key = k
      · have hfind : (e :: s).find? (fun x => decide (x.key = k)) = some e := by
          simp [List.find?, hk]
        simp only [storeGet, hfind] at h
        by_cases ht : now < e.expiresAt
        · rw [if_pos ht] at h
          exact ⟨e, by simp, hk, by simpa using h, ht⟩
        · rw [if_neg ht] at h
          cases h
      · have hfind : (e :: s).find? (fun x => decide (x.key = k))
            = s.find? (fun x => decide (x.key = k)) := by
          simp [List.find?, hk]
        simp only [storeGet, hfind] at h
        obtain ⟨e1, he1, hprops⟩ := ih (by simpa [storeGet] using h)
        exact ⟨e1, List.mem_cons_of_mem _ he1, hprops⟩

/-- Witness for C6: set `"k"` at time 0 with TTL 5, look it up at time 5 —
a miss; and a store holding `"k"` until time 10 looked up at time 3 yields
an unexpired entry. -/
theorem ttl_expiry_witness :
    storeGet (storeSet [] 0 "k" "v" 5) 5 "k" = none ∧
    ∃ e, e ∈ ([⟨"k", "v", 10⟩] : Store) ∧ e.key = "k" ∧ e.value = "v" ∧ 3 < e.expiresAt :=
  ⟨ttl_expiry.1 [] 0 "k" "v" 5 5 (by decide) (by decide),
    ttl_expiry.2 [⟨"k", "v", 10⟩] 3 "k" "v" (by decide)⟩

/-- C1: cache-aside correctness. With a fresh key (no entry in the store),
the first call invokes the wrapped function exactly once and returns its
result `v`; a second call on the resulting store with the same key, at any
time before the TTL expires and with no intervening invalidation, invokes
the wrapped function zero times and returns the same result, whatever the
wrapped function would now return. -/
theorem cache_aside_correctness (s : Store) (now now2 : Nat) (key : String)
    (ttl : Nat) (v : String) (f2 : Except Exc String)
    (hfresh : storeGet s now key = none)
    (hexp : now2 < now + ttl) :
    (cache_response s now key ttl false false (.ok v)).calls = 1 ∧
    (cache_response s now key ttl false false (.ok v)).result = .ok v ∧
    (cache_response (cache_response s now key ttl false false (.ok v)).store
        now2 key ttl false false f2).calls = 0 ∧
    (cache_response (cache_response s now key ttl false false (.ok v)).store
        now2 key ttl false false f2).result = .ok v := by
  have h1 : cache_response s now key ttl false false (.ok v)
      = ⟨.ok v, storeSet s now key v ttl, 1⟩ := by
    simp [cache_response, hfresh]
  refine ⟨by rw [h1], by rw [h1], ?_, ?_⟩ <;>
    rw [h1] <;>
    simp [cache_response, storeGet_storeSet_hit s now now2 key v ttl hexp]

/-- Witness for C1: empty store, key `"product:7"`, TTL 300, first call at
time 0 returns `"payload"` with one invocation; second call at time 299
with a wrapped function that would now return `"changed"` still returns
`"payload"` with zero invocations. -/
theorem cache_aside_correctness_witness :
    (cache_response [] 0 "product:7" 300 false false (.ok "payload")).calls = 1 ∧
    (cache_response [] 0 "product:7" 300 false false (.ok "payload")).result
      = .ok "payload" ∧
    (cache_response (cache_response [] 0 "product:7" 300 false false
        (.ok "payload")).store 299 "product:7" 300 false false
        (.ok "changed")).calls = 0 ∧
    (cache_response (cache_response [] 0 "product:7" 300 false false
        (.ok "payload")).store 299 "product:7" 300 false false
        (.ok "changed")).result = .ok "payload" :=
  cache_aside_correctness [] 0 299 "product:7" 300 "payload" (.ok "changed")
    rfl (by decide)

/-- C7: if the Cache Store's `get` raises during a wrapped read, the
decorator degrades to a miss: it invokes the wrapped function exactly once
and returns that function's outcome unchanged, never propagating the cache
fault. -/
theorem cache_get_fault_degrades_to_miss (s : Store) (now : Nat) (key : String)
    (ttl : Nat) (setF : Bool) (f : Except Exc String) :
    (cache_response s now key ttl true setF f).result = f ∧
    (cache_response s now key ttl true setF f).calls = 1 := by
  cases f <;> simp [cache_response]

/-- C3: if the underlying resource operation raises, `invalidate_cache` is
never called during that request: for each mutating handler, when the
use-case call fails the trace is exactly the single use-case call, and in
particular contains no `callInvalidate` event. -/
theorem write_isolation (e : Exc) (id : String) (inval : String → Except Exc Unit) :
    ((create_product (α := Unit) (.error e) inval).2 = [.callCreate] ∧
      ∀ p, Event.callInvalidate p ∉ (create_product (α := Unit) (.error e) inval).2) ∧
    ((update_product (α := Unit) false id (.error e) inval).2 = [.callUpdate id] ∧
      ∀ p, Event.callInvalidate p ∉ (update_product (α := Unit) false id (.error e) inval).2) ∧
    ((delete_product id (.error e) inval).2 = [.callDelete id] ∧
      ∀ p, Event.callInvalidate p ∉ (delete_product id (.error e) inval).2) := by
  refine ⟨⟨rfl, ?_⟩, ⟨rfl, ?_⟩, ⟨rfl, ?_⟩⟩ <;> intro p <;> simp [create_product,
    update_product, delete_product, createBody, updateBody, deleteBody]

/-- C2 counterexample: the claim that a cache-invalidation failure is never
surfaced is false for the controller as written. Concretely: `usecase.create`
succeeds, but `invalidate_cache` raises; because the `invalidate_cache` call
sits inside the `try` block, the generic `except Exception` clause converts
the cache fault into an HTTP 500 — the handler does NOT report success. -/
theorem invalidation_fault_surfaces_as_500 :
    (create_product (α := Unit) (.ok ())
        (fun _ => .error (.cacheFault "redis down"))).1
      = .error ⟨500, "Erro interno ao criar produto"⟩ := rfl

/-- C2 amended: when `invalidate_cache` itself returns without raising
(the cache module's own best-effort contract makes it swallow store
failures internally), each mutating handler reports the resource
operation's success to its caller; but when `invalidate_cache` raises, each
handler's generic `except Exception` clause converts the cache fault into
an HTTP 500, so a raising invalidation IS surfaced as a user-visible
error. -/
theorem invalidation_fault_isolation_amended (r : α) (id : String) (m : String) :
    ((create_product (.ok r) (fun _ => .ok ())).1 = .ok r ∧
      (update_product false id (.ok r) (fun _ => .ok ())).1 = .ok r ∧
      (delete_product id (.ok ()) (fun _ => .ok ())).1 = .ok ()) ∧
    ((create_product (.ok r) (fun _ => .error (.cacheFault m))).1
        = .error ⟨500, "Erro interno ao criar produto"⟩ ∧
      (update_product false id (.ok r) (fun _ => .error (.cacheFault m))).1
        = .error ⟨500, "Erro interno ao atualizar produto"⟩ ∧
      (delete_product id (.ok ()) (fun _ => .error (.cacheFault m))).1
        = .error ⟨500, "Erro interno ao deletar produto"⟩) :=
  ⟨⟨rfl, rfl, rfl⟩, ⟨rfl, rfl, rfl⟩⟩

/-- C4: on success each mutating handler performs exactly the specified
invalidations in the specified order: `create_product` invalidates
`"products:list"`; `update_product` and `delete_product` invalidate the
exact key `"product:<id>"` first and then `"products:list"`. Stated for an
arbitrary `invalidate_cache` behaviour under the hypothesis that the
handler reported success. -/
theorem invalidations_on_success (r : α) (id : String)
    (inval : String → Except Exc Unit)
    (hc : ∃ v, (create_product (.ok r) inval).1 = .ok v)
    (hu : ∃ v, (update_product false id (.ok r) inval).1 = .ok v)
    (hd : (delete_product id (.ok ()) inval).1 = .ok ()) :
    (create_product (.ok r) inval).2 = [.callCreate, .callInvalidate "products:list"] ∧
    (update_product false id (.ok r) inval).2
      = [.callUpdate id, .callInvalidate ("product:" ++ id),
          .callInvalidate "products:list"] ∧
    (delete_product id (.ok ()) inval).2
      = [.callDelete id, .callInvalidate ("product:" ++ id),
          .callInvalidate "products:list"] := by
  refine ⟨?_, ?_, ?_⟩
  · rcases hc with ⟨v, hv⟩
    cases h1 : inval "products:list" with
    | ok u => simp [create_product, createBody, h1]
    | error e =>
      exfalso
      cases e <;> simp [create_product, createBody, createCatch, h1] at hv
  · rcases hu with ⟨v, hv⟩
    cases h1 : inval ("product:" ++ id) with
    | ok u =>
      cases h2 : inval "products:list" with
      | ok w => simp [update_product, updateBody, h1, h2]
      | error e =>
        exfalso
        cases e <;>
          simp [update_product, updateBody, updateCatch, h1, h2] at hv
    | error e =>
      exfalso
      cases e <;> simp [update_product, updateBody, updateCatch, h1] at hv
  · cases h1 : inval ("product:" ++ id) with
    | ok u =>
      cases h2 : inval "products:list" with
      | ok w => simp [delete_product, deleteBody, h1, h2]
      | error e =>
        exfalso
        cases e <;>
          simp [delete_product, deleteBody, deleteCatch, h1, h2] at hd
    | error e =>
      exfalso
      cases e <;> simp [delete_product, deleteBody, deleteCatch, h1] at hd

/-- Witness for C4 at concrete inputs: an always-succeeding
`invalidate_cache`, `r = ()`, `id = "42"`. -/
theorem invalidations_on_success_witness :
    (create_product (.ok ()) (fun _ => .ok ())).2
        = [.callCreate, .callInvalidate "products:list"] ∧
    (update_product false "42" (.ok ()) (fun _ => .ok ())).2
        = [.callUpdate "42", .callInvalidate "product:42",
            .callInvalidate "products:list"] ∧
    (delete_product "42" (.ok ()) (fun _ => .ok ())).2
        = [.callDelete "42", .callInvalidate "product:42",
            .callInvalidate "products:list"] :=
  invalidations_on_success () "42" (fun _ => .ok ())
    ⟨(), rfl⟩ ⟨(), rfl⟩ rfl

/-- C10: a PATCH with an empty body (no set fields) never calls
`usecase.update` (the trace is empty), and although the code raises an
`HTTPException` with status 400, that exception is caught by the handler's
own generic `except Exception` clause, so the observed response is a 500
"Erro interno ao atualizar produto". -/
theorem empty_update_body_reports_500 (id : String) (updateRes : Except Exc Unit)
    (inval : String → Except Exc Unit) :
    update_product true id updateRes inval
      = (.error ⟨500, "Erro interno ao atualizar produto"⟩, []) := rfl

end StoreApi
